import Mathlib

/-!
Shallow embedding of the GHG dashboard data pipeline (src/app.py) together
with proofs settling the specification claims about it.

Modelling conventions:
- Python strings are lists of characters (`Str`); `str.strip` is `trimC`,
  `str.upper` maps `Char.toUpper` over the list, `str.title` is `titleStr`.
- pandas data frames are lists of records; a missing numeric cell (NaN) is
  `none : Option ℚ`.
- pandas reductions that skip NaN work on the `filterMap`ped present values.
- The decadal percent-change arithmetic, which in the program runs on IEEE
  floats, is modelled by exact rationals extended with the IEEE special
  values that the relevant operations can produce (`FVal`): division by
  zero yields a signed infinity or NaN exactly as numpy float division does.
- Operations that can raise in Python (`KeyError` from `melt` on a missing
  id column, `IndexError` from `.values[0]` on an empty selection,
  `ValueError` from `idxmax` over an all-NaN group) return `Except String`.
- pandas sorts (`sort_values`) are modelled with a deterministic
  insertion sort; every claim under study is invariant under the
  permutation chosen among rows comparing equal.  `groupby` group order is
  modelled as first-encounter order; no claim depends on group order.
-/

namespace GHG

/-- Python strings, modelled as lists of characters. -/
abbrev Str := List Char

/-- The whitespace test used by Python `str.strip`. -/
def isWS (c : Char) : Bool := c.isWhitespace

/-- Remove leading whitespace. -/
def trimL (l : Str) : Str := l.dropWhile isWS

/-- Remove trailing whitespace. -/
def trimR (l : Str) : Str := (l.reverse.dropWhile isWS).reverse

/-- Python `str.strip()`: remove leading and trailing whitespace. -/
def trimC (l : Str) : Str := trimR (trimL l)

/-- Python `str.upper()` (ASCII; all names the claims involve are ASCII). -/
def mapUpper (l : Str) : Str := l.map Char.toUpper

/-- The normalization the script applies to country names before any key
comparison: `astype(str).str.strip().str.upper()` (src/app.py lines 53, 63
and 287). -/
def codeNormalize (l : Str) : Str := mapUpper (trimC l)

/-- Characters the spec's normalizer keeps after lowercasing: lowercase
ASCII letters, digits, spaces. -/
def specKeep (c : Char) : Bool := (97 ≤ c.toNat && c.toNat ≤ 122) || c.isDigit || c = ' '

/-- Collapse runs of spaces to a single space. -/
def collapseWS : Str → Str
  | [] => []
  | [c] => [c]
  | c :: d :: rest =>
    if c = ' ' ∧ d = ' ' then collapseWS (d :: rest)
    else c :: collapseWS (d :: rest)

/-- Modelled from the spec (section 4.1, not implemented anywhere in
src/app.py): trim, lowercase, strip diacritics (the identity on the ASCII
inputs considered here), drop every character that is not a lowercase
letter, digit or space, collapse whitespace runs.  Used only to state when
two names are accent/case/punctuation variants of the same word sequence. -/
def specNormalize (l : Str) : Str :=
  collapseWS (((trimC l).map Char.toLower).filter specKeep)

/-- Helper for `titleStr`; the Boolean records whether the previous
character was alphabetic. -/
def titleAux : Bool → Str → Str
  | _, [] => []
  | prev, c :: rest =>
    (if c.isAlpha then (if prev then Char.toLower c else Char.toUpper c) else c)
      :: titleAux c.isAlpha rest

/-- Python `str.title()`: uppercase each letter that follows a non-letter,
lowercase every other letter (src/app.py lines 67-68). -/
def titleStr (l : Str) : Str := titleAux false l

/-- A cell of a wide input table: a string, a number, or NaN. -/
inductive Cell where
  | str (s : Str)
  | num (q : ℚ)
  | nan
deriving DecidableEq

/-- Python `str(cell)` as used for id columns (`astype(str)`). -/
def cellStr : Cell → Str
  | .str s => s
  | .num _ => []
  | .nan => "nan".data

/-- A numeric value column cell: numbers are kept, anything else is NaN. -/
def cellVal : Cell → Option ℚ
  | .num q => some q
  | _ => none

/-- A wide table: named columns and rows of cells aligned with them. -/
structure Wide where
  cols : List Str
  rows : List (List Cell)

/-- One record output by `melt`. -/
structure MeltRow where
  ids : List Cell
  year : Str
  value : Cell
deriving DecidableEq

/-- Look up the column index of each requested id column; `none` when one
is absent (pandas raises `KeyError`). -/
def findIdxList (cols : List Str) : List Str → Option (List ℕ)
  | [] => some []
  | c :: rest =>
    match cols.findIdx? (fun d => d == c), findIdxList cols rest with
    | some i, some is => some (i :: is)
    | _, _ => none

/-- Message of the uncaught pandas `KeyError` from `melt`. -/
def errKeyMissing : String := "KeyError: id column not found in frame"

/-- pandas `DataFrame.melt(id_vars, value_vars)`: one output record per
(row, value column) pair; raises `KeyError` when an id column is absent
(src/app.py lines 34-46 and 151-156). -/
def meltW (w : Wide) (ids : List Str) (vals : List Str) : Except String (List MeltRow) :=
  match findIdxList w.cols ids with
  | none => .error errKeyMissing
  | some idIdxs =>
    .ok (w.rows.flatMap (fun row =>
      vals.filterMap (fun y =>
        (w.cols.findIdx? (fun d => d == y)).map (fun j =>
          ⟨idIdxs.map (fun i => row.getD i Cell.nan), y, row.getD j Cell.nan⟩))))

/-- Python `str.isdigit()` on an ASCII header. -/
def isDigits (s : Str) : Bool := !s.isEmpty && s.all Char.isDigit

/-- Parse a digit string to a natural number (`astype(int)` on a year). -/
def toNatS (s : Str) : ℕ := s.foldl (fun n c => 10 * n + (c.toNat - 48)) 0

def colCountry : Str := "Country".data

def colSector : Str := "Sector".data

def colRegion : Str := "Macro-region".data

/-- A row of the long country-totals table (`df_country_long`). -/
structure CRow where
  country : Str
  year : ℤ
  value : Option ℚ
deriving DecidableEq

/-- A row of the long sectoral table (`df_sector_long`), also used for the
LULUCF long table restricted to the columns the claims involve. -/
structure SRow where
  country : Str
  sector : Str
  year : ℤ
  value : Option ℚ
deriving DecidableEq

/-- A row of the long LULUCF table (`lulucf_long`). -/
structure LRow where
  country : Str
  sector : Str
  region : Str
  year : ℤ
  value : Option ℚ
deriving DecidableEq

def toCRow (m : MeltRow) : CRow :=
  ⟨cellStr (m.ids.getD 0 Cell.nan), (toNatS m.year : ℤ), cellVal m.value⟩

def toSRow (m : MeltRow) : SRow :=
  ⟨cellStr (m.ids.getD 0 Cell.nan), cellStr (m.ids.getD 1 Cell.nan),
    (toNatS m.year : ℤ), cellVal m.value⟩

def toLRow (m : MeltRow) : LRow :=
  ⟨cellStr (m.ids.getD 0 Cell.nan), cellStr (m.ids.getD 1 Cell.nan),
    cellStr (m.ids.getD 2 Cell.nan), (toNatS m.year : ℤ), cellVal m.value⟩

/-- The load-and-reshape sequence of the script (src/app.py lines 26-50 and
146-157): clean the headers, detect year columns, melt each of the three
wide tables in program order.  Exceptions are uncaught in the script, so an
error from any melt aborts everything after it. -/
def loadPipeline (wc ws wl : Wide) : Except String (List CRow × List SRow × List LRow) := do
  let cCols := wc.cols.map trimC
  let sCols := ws.cols.map trimC
  let years := cCols.filter isDigits
  let yearsS := sCols.filter isDigits
  let mc ← meltW ⟨cCols, wc.rows⟩ [colCountry] years
  let msec ← meltW ⟨sCols, ws.rows⟩ [colCountry, colSector] yearsS
  let lCols := wl.cols.map trimC
  let yearsL := lCols.filter isDigits
  let ml ← meltW ⟨lCols, wl.rows⟩ [colCountry, colSector, colRegion] yearsL
  return (mc.map toCRow, msec.map toSRow, ml.map toLRow)

/-- The exclusion list of src/app.py lines 56-59.  Note that it contains
neither a WORLD TOTAL entry nor any spacing variants. -/
def excludeList : List Str :=
  ["GLOBAL TOTAL".data, "WORLD".data, "INTERNATIONAL TRANSPORT".data,
    "STATISTICAL DIFFERENCE".data, "OTHER".data]

/-- Lines 63-64: normalize the Country column with strip+upper, then drop
rows whose normalized name is in the exclusion list.  Applied only to the
country tables, not to the sectoral or LULUCF tables. -/
def applyExclusion (l : List CRow) : List CRow :=
  (l.map (fun r => (⟨codeNormalize r.country, r.year, r.value⟩ : CRow))).filter
    (fun r => !(decide (r.country ∈ excludeList)))

/-- The country long table as the display-oriented steps consume it
(lines 63-68): strip+upper, exclusion filter, then re-title for display. -/
def stageDisplay (l : List CRow) : List CRow :=
  (applyExclusion l).map (fun r => (⟨titleStr r.country, r.year, r.value⟩ : CRow))

/-- The same table as the bump-chart steps consume it after line 287
reassigns the Country column with strip+upper once more. -/
def stageBump (l : List CRow) : List CRow :=
  (stageDisplay l).map (fun r => (⟨codeNormalize r.country, r.year, r.value⟩ : CRow))

/-- Descending comparison on sums (no NaN can remain after a groupby sum). -/
def geQ (a b : Str × ℚ) : Prop := b.2 ≤ a.2

instance : DecidableRel geQ := fun a b => inferInstanceAs (Decidable (b.2 ≤ a.2))

/-- Lines 80-86: filter the long country table to the chosen year, group by
country, sum emissions (pandas skips NaN and sums an all-NaN group to 0),
and sort descending by the sums. -/
def countryTotals (l : List CRow) (y : ℤ) : List (Str × ℚ) :=
  let ly := l.filter (fun r => r.year == y)
  let grouped := ((ly.map (fun r => r.country)).dedup).map (fun c =>
    (c, ((ly.filter (fun r => r.country == c)).filterMap (fun r => r.value)).sum))
  grouped.insertionSort geQ

/-- pandas `sort_values(ascending=False)` key order on possibly-NaN
emissions: numbers descending, NaN last. -/
def nanLastGe (a b : Option ℚ) : Bool :=
  match a, b with
  | some x, some y => decide (y ≤ x)
  | some _, none => true
  | none, none => true
  | none, some _ => false

/-- Row comparison for `sort_values("Emissions", ascending=False)`. -/
def rowGe (a b : CRow) : Prop := nanLastGe a.value b.value = true

instance : DecidableRel rowGe := fun a b =>
  inferInstanceAs (Decidable (nanLastGe a.value b.value = true))

/-- Lines 223-234: take the ten rows with the largest emissions for the
year; if the selected country (compared case-insensitively) is not among
them, append its rows, re-sort and keep eleven. -/
def topEmitters (df : List CRow) (sel : Str) : List CRow :=
  let top := (df.insertionSort rowGe).take 10
  let selRows := df.filter (fun r => mapUpper r.country == mapUpper sel)
  if selRows ≠ [] ∧ mapUpper sel ∉ top.map (fun r => mapUpper r.country)
  then ((top ++ selRows).insertionSort rowGe).take 11
  else top

/-- The IEEE float values the percent-change arithmetic can produce from
exact inputs: a rational, a signed infinity, or NaN. -/
inductive FVal where
  | nan
  | posInf
  | negInf
  | num (q : ℚ)
deriving DecidableEq

/-- A NaN cell enters the float arithmetic as NaN. -/
def toF : Option ℚ → FVal
  | none => .nan
  | some q => .num q

/-- IEEE subtraction restricted to the values in play. -/
def fsub : FVal → FVal → FVal
  | .nan, _ => .nan
  | _, .nan => .nan
  | .posInf, .posInf => .nan
  | .posInf, _ => .posInf
  | .negInf, .negInf => .nan
  | .negInf, _ => .negInf
  | .num _, .posInf => .negInf
  | .num _, .negInf => .posInf
  | .num x, .num y => .num (x - y)

/-- IEEE division restricted to the values in play; dividing a nonzero
number by zero gives a signed infinity, zero by zero gives NaN. -/
def fdiv : FVal → FVal → FVal
  | .nan, _ => .nan
  | _, .nan => .nan
  | .posInf, .posInf => .nan
  | .posInf, .negInf => .nan
  | .negInf, .posInf => .nan
  | .negInf, .negInf => .nan
  | .posInf, .num y => if y < 0 then .negInf else .posInf
  | .negInf, .num y => if y < 0 then .posInf else .negInf
  | .num _, .posInf => .num 0
  | .num _, .negInf => .num 0
  | .num x, .num y =>
    if y = 0 then (if x = 0 then .nan else if 0 < x then .posInf else .negInf)
    else .num (x / y)

/-- Multiplication by the literal 100. -/
def fmul100 : FVal → FVal
  | .nan => .nan
  | .posInf => .posInf
  | .negInf => .negInf
  | .num x => .num (x * 100)

/-- One row of a per-sector group in the percent-change computation. -/
structure GRow where
  year : ℤ
  value : Option ℚ
deriving DecidableEq

/-- Message of the uncaught `IndexError` from `.values[0]` on an empty
selection. -/
def errIndex : String := "IndexError: index 0 is out of bounds for axis 0 with size 0"

/-- Python's `x.loc[x.Year == y, "Emissions"].values[0]` uses the first
matching row only; `none` when there is no matching row at all. -/
def firstObs (rows : List GRow) (y : ℤ) : Option (Option ℚ) :=
  (rows.find? (fun r => r.year == y)).map (fun r => r.value)

/-- The lambda of src/app.py lines 130-133, applied to one sector group:
guarded only on the presence of year `y - 10`, it computes
`(v[y] - v[y-10]) / v[y-10] * 100` in float arithmetic, and raises
`IndexError` when year `y` has no row. -/
def pctChangeGroup (rows : List GRow) (y : ℤ) : Except String FVal :=
  if rows.any (fun r => r.year == y - 10) then
    match firstObs rows y with
    | none => .error errIndex
    | some a =>
      match firstObs rows (y - 10) with
      | none => .error errIndex
      | some b => .ok (fmul100 (fdiv (fsub (toF a) (toF b)) (toF b)))
  else .ok FVal.nan

/-- Apply a fallible function across a list, stopping at the first error
(the order in which `groupby().apply` visits groups). -/
def mapExcept {α β : Type} (f : α → Except String β) : List α → Except String (List β)
  | [] => .ok []
  | a :: t => (f a).bind (fun b => (mapExcept f t).map (fun bs => b :: bs))

/-- Lines 127-136 (`df_all`): restrict the sectoral table to the selected
country, group by sector, apply the percent-change lambda, then `dropna`
(which removes NaN but keeps infinities). -/
def dfAll (t : List SRow) (sel : Str) (y : ℤ) : Except String (List (Str × FVal)) := do
  let mine := t.filter (fun r => r.country == sel)
  let sectors := (mine.map (fun r => r.sector)).dedup
  let pairs ← mapExcept (fun s =>
    (pctChangeGroup ((mine.filter (fun r => r.sector == s)).map
      (fun r => ⟨r.year, r.value⟩)) y).map (fun v => (s, v))) sectors
  return pairs.filter (fun p => !(p.2 == FVal.nan))

/-- Keep only the first row of each year within a group. -/
def dedupFirstByYear : List GRow → List GRow
  | [] => []
  | r :: rest => r :: dedupFirstByYear (rest.filter (fun s => !(s.year == r.year)))
termination_by l => l.length
decreasing_by
  have h := List.length_filter_le (fun s => !(s.year == r.year)) rest
  simp only [List.length_cons]
  omega

/-- Fold that keeps the first-encountered row attaining the maximum value
(`idxmax` keeps the first index of the max). -/
def pickFM (b : SRow × ℚ) : List (SRow × ℚ) → SRow × ℚ
  | [] => b
  | x :: xs => pickFM (if b.2 < x.2 then x else b) xs

/-- The rows of a group paired with their values, NaN rows skipped
(`idxmax` skips NaN). -/
def presentPairs (g : List SRow) : List (SRow × ℚ) :=
  g.filterMap (fun r => r.value.map (fun q => (r, q)))

/-- The row `idxmax` selects for one country's group, `none` when every
value in the group is NaN. -/
def pickC (dfy : List SRow) (c : Str) : Option SRow :=
  match presentPairs (dfy.filter (fun r => r.country == c)) with
  | [] => none
  | p :: ps => some (pickFM p ps).1

/-- Message of the error pandas raises for `idxmax` over an all-NaN group. -/
def errAllNA : String := "ValueError: attempt to get argmax of an empty sequence"

/-- Whether a possibly-missing value is present and at least `m`; used to
state the first-encounter tie-break of `idxmax`. -/
def geOpt (m : ℚ) : Option ℚ → Bool
  | some q => decide (m ≤ q)
  | none => false

/-- Lines 258-263: restrict the sectoral table to the chosen year, take the
per-country `idxmax` of emissions and look the winning rows up.  A group
whose values are all NaN makes the whole computation raise. -/
def dominantRows (df : List SRow) (y : ℤ) : Except String (List SRow) :=
  let dfy := df.filter (fun r => r.year == y)
  let cs := (dfy.map (fun r => r.country)).dedup
  if cs.all (fun c => (pickC dfy c).isSome)
  then .ok (cs.filterMap (pickC dfy))
  else .error errAllNA

/-- A row of `df_rank` after the groupby sum (line 289): one summed value
per (country, year); sums skip NaN so the value is a plain rational. -/
structure RRow where
  country : Str
  year : ℤ
  value : ℚ
deriving DecidableEq

/-- Line 289: `groupby(["Country", "Year"])["Emissions"].sum()` with
pandas defaults: NaN skipped, an all-NaN group sums to 0. -/
def groupbySum (l : List CRow) : List RRow :=
  ((l.map (fun r => (r.country, r.year))).dedup).map (fun k =>
    ⟨k.1, k.2,
      ((l.filter (fun r => r.country == k.1 && r.year == k.2)).filterMap
        (fun r => r.value)).sum⟩)

/-- Lines 288-289: drop the GLOBAL TOTAL rows, then group and sum. -/
def dfRankRows (l : List CRow) : List RRow :=
  groupbySum (l.filter (fun r => !(r.country == "GLOBAL TOTAL".data)))

/-- The distinct summed values present for one year. -/
def yearVals (rows : List RRow) (y : ℤ) : Finset ℚ :=
  ((rows.filter (fun r => r.year == y)).map (fun r => r.value)).toFinset

/-- Line 290: `rank(ascending=False, method="dense")` computed per year:
one plus the number of distinct values strictly greater. -/
def rankOf (rows : List RRow) (r : RRow) : ℕ :=
  ((yearVals rows r.year).filter (fun v => r.value < v)).card + 1

/-! ### Character-level lemmas about the Python string primitives -/

theorem toNat_ofNat_lt {n : ℕ} (h : n < 55296) : (Char.ofNat n).toNat = n := by
  have hv : Nat.isValidChar n := Or.inl h
  rw [Char.ofNat, dif_pos hv]
  simp [Char.ofNatAux, Char.toNat, UInt32.toNat]

theorem toNat_toUpper (c : Char) :
    (Char.toUpper c).toNat =
      if 97 ≤ c.toNat ∧ c.toNat ≤ 122 then c.toNat - 32 else c.toNat := by
  rw [Char.toUpper]
  by_cases h : c.toNat ≥ 97 ∧ c.toNat ≤ 122
  · rw [if_pos h, if_pos h]
    exact toNat_ofNat_lt (by omega)
  · rw [if_neg h, if_neg h]

theorem eq_iff_toNat (a b : Char) : a = b ↔ a.toNat = b.toNat := by
  constructor
  · intro h; rw [h]
  · intro h
    exact Char.ext (UInt32.ext h)

theorem isWhitespace_toNat (c : Char) :
    c.isWhitespace = (c.toNat = 32 || c.toNat = 9 || c.toNat = 13 || c.toNat = 10) := by
  rw [Char.isWhitespace]
  simp only [eq_iff_toNat]
  rfl

theorem wsUp (c : Char) : (Char.toUpper c).isWhitespace = c.isWhitespace := by
  rw [isWhitespace_toNat, isWhitespace_toNat, toNat_toUpper]
  by_cases h : 97 ≤ c.toNat ∧ c.toNat ≤ 122
  · rw [if_pos h]
    have h1 : (c.toNat - 32 = 32 || c.toNat - 32 = 9 || c.toNat - 32 = 13 ||
        c.toNat - 32 = 10) = false := by
      simp only [Bool.or_eq_false_iff, decide_eq_false_iff_not]
      omega
    have h2 : (c.toNat = 32 || c.toNat = 9 || c.toNat = 13 || c.toNat = 10) = false := by
      simp only [Bool.or_eq_false_iff, decide_eq_false_iff_not]
      omega
    rw [h1, h2]
  · rw [if_neg h]

theorem upUp (c : Char) : Char.toUpper (Char.toUpper c) = Char.toUpper c := by
  rw [eq_iff_toNat, toNat_toUpper, toNat_toUpper]
  split_ifs <;> omega

theorem toNat_toLower (c : Char) :
    (Char.toLower c).toNat =
      if 65 ≤ c.toNat ∧ c.toNat ≤ 90 then c.toNat + 32 else c.toNat := by
  rw [Char.toLower]
  by_cases h : c.toNat ≥ 65 ∧ c.toNat ≤ 90
  · rw [if_pos h, if_pos h]
    exact toNat_ofNat_lt (by omega)
  · rw [if_neg h, if_neg h]

theorem upLo (c : Char) : Char.toUpper (Char.toLower c) = Char.toUpper c := by
  rw [eq_iff_toNat, toNat_toUpper, toNat_toUpper, toNat_toLower]
  split_ifs <;> omega

theorem wsLo (c : Char) : (Char.toLower c).isWhitespace = c.isWhitespace := by
  rw [isWhitespace_toNat, isWhitespace_toNat, toNat_toLower]
  by_cases h : 65 ≤ c.toNat ∧ c.toNat ≤ 90
  · rw [if_pos h]
    have h1 : (c.toNat + 32 = 32 || c.toNat + 32 = 9 || c.toNat + 32 = 13 ||
        c.toNat + 32 = 10) = false := by
      simp only [Bool.or_eq_false_iff, decide_eq_false_iff_not]
      omega
    have h2 : (c.toNat = 32 || c.toNat = 9 || c.toNat = 13 || c.toNat = 10) = false := by
      simp only [Bool.or_eq_false_iff, decide_eq_false_iff_not]
      omega
    rw [h1, h2]
  · rw [if_neg h]

/-! ### Trim lemmas -/

theorem dropWhile_append_all {p : Char → Bool} (l1 l2 : Str)
    (h : ∀ c ∈ l1, p c = true) : (l1 ++ l2).dropWhile p = l2.dropWhile p := by
  induction l1 with
  | nil => rfl
  | cons a t ih =>
    rw [List.cons_append, List.dropWhile_cons, if_pos (h a (List.mem_cons_self a t))]
    exact ih (fun c hc => h c (List.mem_cons_of_mem a hc))

theorem dropWhile_eq_nil_all {p : Char → Bool} {l : Str}
    (h : ∀ c ∈ l, p c = true) : l.dropWhile p = [] := by
  have h2 := dropWhile_append_all l [] h
  simpa using h2

theorem trim_aux (n q : Str) (hq : ∀ c ∈ q, isWS c = true) :
    ((n ++ q).dropWhile isWS).reverse.dropWhile isWS =
      (n.dropWhile isWS).reverse.dropWhile isWS := by
  induction n with
  | nil =>
    rw [List.nil_append, dropWhile_eq_nil_all hq]
    rfl
  | cons c t ih =>
    by_cases hc : isWS c = true
    · rw [List.cons_append, List.dropWhile_cons, if_pos hc, List.dropWhile_cons, if_pos hc]
      exact ih
    · rw [List.cons_append, List.dropWhile_cons, if_neg hc, List.dropWhile_cons, if_neg hc]
      rw [List.reverse_cons, List.reverse_cons, List.reverse_append]
      rw [List.append_assoc]
      exact dropWhile_append_all _ _ (fun c hc => hq c (List.mem_reverse.mp hc))

theorem trimC_pad (p n q : Str) (hp : ∀ c ∈ p, isWS c = true)
    (hq : ∀ c ∈ q, isWS c = true) : trimC (p ++ n ++ q) = trimC n := by
  rw [trimC, trimC, trimL, trimL, trimR, trimR, List.append_assoc,
    dropWhile_append_all p (n ++ q) hp]
  rw [trim_aux n q hq]

theorem dropWhile_mapUpper (l : Str) :
    (l.map Char.toUpper).dropWhile isWS = (l.dropWhile isWS).map Char.toUpper := by
  induction l with
  | nil => rfl
  | cons c t ih =>
    rw [List.map_cons, List.dropWhile_cons, List.dropWhile_cons]
    have h : isWS (Char.toUpper c) = isWS c := by
      rw [isWS, isWS, wsUp]
    rw [h]
    by_cases hc : isWS c = true
    · rw [if_pos hc, if_pos hc]
      exact ih
    · rw [if_neg hc, if_neg hc, List.map_cons]

theorem trimC_mapUpper (l : Str) : trimC (mapUpper l) = mapUpper (trimC l) := by
  rw [trimC, trimC, mapUpper, mapUpper, trimL, trimL, trimR, trimR]
  rw [dropWhile_mapUpper, ← List.map_reverse, dropWhile_mapUpper, List.map_reverse]

/-! ### C1: what the script's normalization actually identifies -/

/-- C1 (amended): the normalization the script applies before key
comparison is only strip-plus-uppercase, so two names map to the same key
whenever they are case variants of one another padded with leading or
trailing whitespace. -/
theorem c1_normalize_case_variants (p1 q1 p2 q2 n1 n2 : Str)
    (hp1 : ∀ c ∈ p1, isWS c = true) (hq1 : ∀ c ∈ q1, isWS c = true)
    (hp2 : ∀ c ∈ p2, isWS c = true) (hq2 : ∀ c ∈ q2, isWS c = true)
    (hcase : mapUpper n1 = mapUpper n2) :
    codeNormalize (p1 ++ n1 ++ q1) = codeNormalize (p2 ++ n2 ++ q2) := by
  rw [codeNormalize, codeNormalize, trimC_pad p1 n1 q1 hp1 hq1, trimC_pad p2 n2 q2 hp2 hq2]
  rw [← trimC_mapUpper, ← trimC_mapUpper, hcase]

/-- C1 counterexample: two punctuation variants of the same word sequence
(in the spec's sense, witnessed by equal spec-normalized forms) that the
script's actual pre-comparison normalization maps to different keys. -/
theorem c1_counterexample :
    specNormalize ("St. Kitts".data) = specNormalize ("St Kitts".data) ∧
    codeNormalize ("St. Kitts".data) ≠ codeNormalize ("St Kitts".data) := by
  constructor
  · decide
  · decide

/-- Witness for the amended C1 at a concrete input. -/
theorem c1_witness :
    codeNormalize ([' '] ++ "united states".data ++ []) =
      codeNormalize ([] ++ "UNITED STATES".data ++ []) :=
  c1_normalize_case_variants [' '] [] [] [] ("united states".data) ("UNITED STATES".data)
    (by decide) (by decide) (by decide) (by decide) (by decide)

/-! ### Generic counting helpers -/

theorem length_filterMap_all {α β : Type} (f : α → Option β) (l : List α)
    (h : ∀ a ∈ l, (f a).isSome = true) : (l.filterMap f).length = l.length := by
  induction l with
  | nil => rfl
  | cons a t ih =>
    rcases hfa : f a with _ | b
    · have := h a (List.mem_cons_self a t)
      rw [hfa] at this
      simp at this
    · rw [List.filterMap_cons, hfa, List.length_cons, List.length_cons]
      rw [ih (fun x hx => h x (List.mem_cons_of_mem a hx))]

theorem length_flatMap_const {α β : Type} (f : α → List β) (l : List α) (k : ℕ)
    (h : ∀ a ∈ l, (f a).length = k) : (l.flatMap f).length = l.length * k := by
  induction l with
  | nil => simp
  | cons a t ih =>
    rw [List.flatMap_cons, List.length_append, h a (List.mem_cons_self a t),
      ih (fun x hx => h x (List.mem_cons_of_mem a hx)), List.length_cons]
    ring

/-! ### C2: where the exclusion filter is and is not applied -/

/-- C2 counterexample: a row named World Total survives the country-table
filter (the list has no WORLD TOTAL entry), while the LULUCF melt applies
no exclusion at all: a GLOBAL TOTAL row, which the country filter drops,
is retained there. -/
theorem c2_counterexample :
    applyExclusion [⟨"World Total".data, 2024, some 1⟩] =
      [⟨"WORLD TOTAL".data, 2024, some 1⟩] ∧
    applyExclusion [⟨"Global Total".data, 2024, some 1⟩] = [] ∧
    meltW ⟨[colCountry, colSector, colRegion, "2024".data],
        [[Cell.str ("GLOBAL TOTAL".data), Cell.str ("LULUCF".data),
          Cell.str ("World".data), Cell.num 3]]⟩
      [colCountry, colSector, colRegion] ["2024".data] =
      .ok [⟨[Cell.str ("GLOBAL TOTAL".data), Cell.str ("LULUCF".data),
        Cell.str ("World".data)], "2024".data, Cell.num 3⟩] := by
  refine ⟨by decide, by decide, rfl⟩

/-- C2 (amended): the exclusion filter runs only on the country tables and
keeps exactly the rows whose strip-plus-uppercase name is outside the
five-entry exclusion list; the sectoral and LULUCF melts drop no row
(one output record per row and year column). -/
theorem c2_exclusion_scope (l : List CRow) (r : CRow) (w : Wide) (ids ys : List Str)
    (out : List MeltRow) (hys : ∀ y ∈ ys, y ∈ w.cols)
    (hok : meltW w ids ys = .ok out) :
    (r ∈ applyExclusion l ↔ ∃ r0 ∈ l,
      r = (⟨codeNormalize r0.country, r0.year, r0.value⟩ : CRow) ∧
        codeNormalize r0.country ∉ excludeList) ∧
    out.length = w.rows.length * ys.length := by
  constructor
  · rw [applyExclusion]
    rw [List.mem_filter]
    constructor
    · rintro ⟨hmem, hkeep⟩
      rcases List.mem_map.mp hmem with ⟨r0, hr0, hr0eq⟩
      refine ⟨r0, hr0, hr0eq.symm, ?_⟩
      rw [← hr0eq] at hkeep
      simpa using hkeep
    · rintro ⟨r0, hr0, hreq, hout⟩
      refine ⟨List.mem_map.mpr ⟨r0, hr0, hreq.symm⟩, ?_⟩
      rw [hreq]
      simpa using hout
  · rcases hfi : findIdxList w.cols ids with _ | ii
    · rw [meltW, hfi] at hok
      exact absurd hok (by simp)
    · rw [meltW, hfi] at hok
      have hout : out = w.rows.flatMap (fun row =>
          ys.filterMap (fun y =>
            (w.cols.findIdx? (fun d => d == y)).map (fun j =>
              ⟨ii.map (fun i => row.getD i Cell.nan), y, row.getD j Cell.nan⟩))) := by
        have := hok
        simp only [Except.ok.injEq] at this
        exact this.symm
      rw [hout]
      apply length_flatMap_const
      intro row _
      apply length_filterMap_all
      intro y hy
      rcases hnf : w.cols.findIdx? (fun d => d == y) with _ | j
      · rw [List.findIdx?_eq_none_iff] at hnf
        have := hnf y (hys y hy)
        simp at this
      · simp

/-- Witness for the amended C2 at a concrete input. -/
theorem c2_witness :
    ((⟨"WORLD TOTAL".data, 2024, some 1⟩ : CRow) ∈
        applyExclusion [⟨"World Total".data, 2024, some 1⟩] ↔
      ∃ r0 ∈ [(⟨"World Total".data, 2024, some 1⟩ : CRow)],
        (⟨"WORLD TOTAL".data, 2024, some 1⟩ : CRow) =
          (⟨codeNormalize r0.country, r0.year, r0.value⟩ : CRow) ∧
          codeNormalize r0.country ∉ excludeList) ∧
    ([(⟨[Cell.str ("X".data)], "2024".data, Cell.num 3⟩ : MeltRow)]).length =
      ([[Cell.str ("X".data), Cell.num 3]]).length * (["2024".data]).length :=
  c2_exclusion_scope [⟨"World Total".data, 2024, some 1⟩]
    ⟨"WORLD TOTAL".data, 2024, some 1⟩
    ⟨[colCountry, "2024".data], [[Cell.str ("X".data), Cell.num 3]]⟩
    [colCountry] ["2024".data]
    [⟨[Cell.str ("X".data)], "2024".data, Cell.num 3⟩]
    (by decide) rfl

/-! ### C4: a missing id column aborts the whole pipeline -/

/-- C4 (amended): when the Country id column is absent from the country
table, `melt` raises `KeyError`; nothing catches it, so the whole load
pipeline aborts and no later dataset is melted. -/
theorem c4_pipeline_abort (wc ws wl : Wide) (h : colCountry ∉ wc.cols.map trimC) :
    loadPipeline wc ws wl = .error errKeyMissing := by
  have hf : (wc.cols.map trimC).findIdx? (fun d => d == colCountry) = none := by
    rw [List.findIdx?_eq_none_iff]
    intro x hx
    simp only [beq_eq_false_iff_ne, ne_eq]
    intro heq
    exact h (heq ▸ hx)
  have hm : meltW ⟨wc.cols.map trimC, wc.rows⟩ [colCountry]
      ((wc.cols.map trimC).filter isDigits) = .error errKeyMissing := by
    rw [meltW]
    have : findIdxList (wc.cols.map trimC) [colCountry] = none := by
      rw [findIdxList, hf]
    rw [this]
  rw [loadPipeline]
  simp only [hm, bind, Except.bind]

/-- C4 counterexample: with a country table whose id column is named
Nation, the pipeline as a whole returns the `KeyError` and produces no
output for any dataset, even though the sectoral table alone would melt
fine. -/
theorem c4_counterexample :
    loadPipeline ⟨["Nation".data, "2020".data], [[Cell.str ("X".data), Cell.num 5]]⟩
        ⟨[colCountry, colSector, "2020".data],
          [[Cell.str ("X".data), Cell.str ("Power".data), Cell.num 7]]⟩
        ⟨[colCountry, colSector, colRegion, "2020".data],
          [[Cell.str ("X".data), Cell.str ("L".data), Cell.str ("E".data), Cell.num 1]]⟩
      = .error errKeyMissing ∧
    meltW ⟨[colCountry, colSector, "2020".data],
        [[Cell.str ("X".data), Cell.str ("Power".data), Cell.num 7]]⟩
      [colCountry, colSector] ["2020".data]
      = .ok [⟨[Cell.str ("X".data), Cell.str ("Power".data)], "2020".data, Cell.num 7⟩] :=
  ⟨rfl, rfl⟩

/-- Witness for the amended C4 at a concrete input. -/
theorem c4_witness :
    loadPipeline ⟨["Nation".data, "2020".data], []⟩ ⟨[], []⟩ ⟨[], []⟩ =
      .error errKeyMissing :=
  c4_pipeline_abort _ _ _ (by decide)

/-! ### C5: how missing cells travel through the groupby sums -/

/-- C5 counterexample: an entity whose only cell for the year is NaN does
appear in the totals, with a total of exactly 0 (pandas sums an all-NaN
group to 0 by default). -/
theorem c5_counterexample :
    countryTotals [⟨"X".data, 2024, none⟩] 2024 = [("X".data, 0)] := rfl

/-- C5 (amended): a group appears in the year's totals exactly when the
entity has at least one row for that year (NaN or not); its total is the
sum of the present values only, each NaN cell contributing nothing — so an
entity all of whose cells are missing appears with total 0 rather than
being dropped. -/
theorem c5_nan_propagation (l : List CRow) (y : ℤ) (c : Str) :
    ((∃ t, (c, t) ∈ countryTotals l y) ↔ ∃ r ∈ l, r.year = y ∧ r.country = c) ∧
    (∀ t, (c, t) ∈ countryTotals l y →
      t = ((l.filter (fun r => r.country == c && r.year == y)).filterMap
        (fun r => r.value)).sum) ∧
    (∀ r0 : CRow, r0.value = none →
      ((l ++ [r0]).filter (fun r => r.country == c && r.year == y)).filterMap
          (fun r => r.value) =
        (l.filter (fun r => r.country == c && r.year == y)).filterMap
          (fun r => r.value)) := by
  have hmem : ∀ t : ℚ, (c, t) ∈ countryTotals l y ↔
      c ∈ ((l.filter (fun r => r.year == y)).map (fun r => r.country)).dedup ∧
        t = (((l.filter (fun r => r.year == y)).filter
          (fun r => r.country == c)).filterMap (fun r => r.value)).sum := by
    intro t
    rw [countryTotals]
    rw [(List.perm_insertionSort geQ _).mem_iff]
    rw [List.mem_map]
    constructor
    · rintro ⟨c0, hc0, heq⟩
      have h1 : c0 = c := congrArg Prod.fst heq
      have h2 := congrArg Prod.snd heq
      subst h1
      exact ⟨hc0, h2.symm⟩
    · rintro ⟨hc, ht⟩
      exact ⟨c, hc, by rw [ht]⟩
  have hff : (l.filter (fun r => r.year == y)).filter (fun r => r.country == c) =
      l.filter (fun r => r.country == c && r.year == y) :=
    List.filter_filter _ l
  refine ⟨?_, ?_, ?_⟩
  · constructor
    · rintro ⟨t, ht⟩
      rcases (hmem t).mp ht with ⟨hc, -⟩
      rcases List.mem_map.mp (List.mem_dedup.mp hc) with ⟨r, hr, hrc⟩
      rcases List.mem_filter.mp hr with ⟨hrl, hry⟩
      exact ⟨r, hrl, by simpa using hry, hrc⟩
    · rintro ⟨r, hrl, hry, hrc⟩
      refine ⟨_, (hmem _).mpr ⟨?_, rfl⟩⟩
      exact List.mem_dedup.mpr (List.mem_map.mpr
        ⟨r, List.mem_filter.mpr ⟨hrl, by simpa using hry⟩, hrc⟩)
  · intro t ht
    rcases (hmem t).mp ht with ⟨-, hts⟩
    rw [hts, hff]
  · intro r0 h0
    rw [List.filter_append, List.filterMap_append]
    have hnil : (List.filter (fun r => r.country == c && r.year == y) [r0]).filterMap
        (fun r => r.value) = [] := by
      rw [List.filter_cons]
      by_cases hp : (r0.country == c && r0.year == y) = true
      · rw [if_pos hp, List.filter_nil, List.filterMap_cons, h0, List.filterMap_nil]
      · rw [if_neg hp, List.filter_nil, List.filterMap_nil]
    rw [hnil, List.append_nil]

/-- Witness for the amended C5 at a concrete input. -/
theorem c5_witness :
    (0 : ℚ) = (([(⟨"X".data, 2024, (none : Option ℚ)⟩ : CRow)].filter
      (fun r => r.country == "X".data && r.year == (2024 : ℤ))).filterMap
        (fun r => r.value)).sum :=
  (c5_nan_propagation [⟨"X".data, 2024, none⟩] 2024 ("X".data)).2.1 0 (by decide)

/-! ### C8: dense ranking of the summed table -/

theorem map_proj_build (K : List (Str × ℤ)) (g : Str × ℤ → ℚ) :
    (K.map (fun k => (⟨k.1, k.2, g k⟩ : RRow))).map (fun r => (r.country, r.year)) = K := by
  induction K with
  | nil => rfl
  | cons a t ih =>
    rw [List.map_cons, List.map_cons, ih]

/-- C8 (confirmed): over the summed rank table, ranks computed per year by
`rank(method="dense", ascending=False)` give equal values equal ranks, the
next lower distinct value the next rank, any per-year maximum rank 1, and
the groupby sum emits exactly one row per (country, year) key. -/
theorem c8_dense_rank (l : List CRow) :
    (∀ r r' : RRow, r.year = r'.year → r.value = r'.value →
      rankOf (dfRankRows l) r = rankOf (dfRankRows l) r') ∧
    (∀ r r' : RRow, r ∈ dfRankRows l → r' ∈ dfRankRows l → r.year = r'.year →
      r'.value < r.value →
      (∀ s ∈ dfRankRows l, s.year = r.year →
        ¬(r'.value < s.value ∧ s.value < r.value)) →
      rankOf (dfRankRows l) r' = rankOf (dfRankRows l) r + 1) ∧
    (∀ r ∈ dfRankRows l, (∀ s ∈ dfRankRows l, s.year = r.year →
      s.value ≤ r.value) → rankOf (dfRankRows l) r = 1) ∧
    ((dfRankRows l).map (fun r => (r.country, r.year))).Nodup := by
  have hyv : ∀ (rows : List RRow) (y : ℤ) (v : ℚ),
      v ∈ yearVals rows y ↔ ∃ s ∈ rows, s.year = y ∧ s.value = v := by
    intro rows y v
    rw [yearVals, List.mem_toFinset, List.mem_map]
    constructor
    · rintro ⟨s, hs, hv⟩
      rcases List.mem_filter.mp hs with ⟨hsl, hsy⟩
      exact ⟨s, hsl, by simpa using hsy, hv⟩
    · rintro ⟨s, hsl, hsy, hv⟩
      exact ⟨s, List.mem_filter.mpr ⟨hsl, by simpa using hsy⟩, hv⟩
  refine ⟨?_, ?_, ?_, ?_⟩
  · intro r r' hy hv
    rw [rankOf, rankOf, hy, hv]
  · intro r r' hr hr' hy hlt hno
    rw [rankOf, rankOf, ← hy]
    have hins : (yearVals (dfRankRows l) r.year).filter (fun v => r'.value < v) =
        insert r.value ((yearVals (dfRankRows l) r.year).filter
          (fun v => r.value < v)) := by
      ext v
      rw [Finset.mem_filter, Finset.mem_insert, Finset.mem_filter]
      constructor
      · rintro ⟨hv, hgt⟩
        by_cases hveq : v = r.value
        · exact Or.inl hveq
        · refine Or.inr ⟨hv, ?_⟩
          rcases (hyv _ _ _).mp hv with ⟨s, hsl, hsy, hsv⟩
          have := hno s hsl hsy
          rw [hsv] at this
          rcases lt_trichotomy v r.value with h | h | h
          · exact absurd ⟨hgt, h⟩ this
          · exact absurd h hveq
          · exact h
      · rintro (hveq | ⟨hv, hgt⟩)
        · subst hveq
          exact ⟨(hyv _ _ _).mpr ⟨r, hr, rfl, rfl⟩, hlt⟩
        · exact ⟨hv, lt_trans hlt hgt⟩
    rw [hins, Finset.card_insert_of_not_mem (by
      rw [Finset.mem_filter]
      rintro ⟨-, hcon⟩
      exact lt_irrefl _ hcon)]
  · intro r hr hmax
    rw [rankOf]
    have : (yearVals (dfRankRows l) r.year).filter (fun v => r.value < v) = ∅ := by
      rw [Finset.filter_eq_empty_iff]
      intro v hv
      rcases (hyv _ _ _).mp hv with ⟨s, hsl, hsy, hsv⟩
      rw [← hsv]
      exact not_lt_of_le (hmax s hsl hsy)
    rw [this]
    rfl
  · rw [dfRankRows, groupbySum, map_proj_build]
    exact List.nodup_dedup _

/-- Witness for C8 at a concrete input: two countries in one year, ranks 1
and 2. -/
theorem c8_witness :
    rankOf (dfRankRows [⟨"A".data, 2020, some 5⟩, ⟨"B".data, 2020, some 3⟩])
        ⟨"A".data, 2020, 5⟩ = 1 ∧
    rankOf (dfRankRows [⟨"A".data, 2020, some 5⟩, ⟨"B".data, 2020, some 3⟩])
        ⟨"B".data, 2020, 3⟩ =
      rankOf (dfRankRows [⟨"A".data, 2020, some 5⟩, ⟨"B".data, 2020, some 3⟩])
        ⟨"A".data, 2020, 5⟩ + 1 := by
  have h : dfRankRows [⟨"A".data, 2020, some 5⟩, ⟨"B".data, 2020, some 3⟩] =
      [⟨"A".data, 2020, 5⟩, ⟨"B".data, 2020, 3⟩] := by
    have h1 : ([⟨"A".data, 2020, some 5⟩, ⟨"B".data, 2020, some 3⟩] : List CRow).filter
        (fun r => !(r.country == "GLOBAL TOTAL".data)) =
        [⟨"A".data, 2020, some 5⟩, ⟨"B".data, 2020, some 3⟩] := by decide
    rw [dfRankRows, h1, groupbySum]
    have h2 : (([(⟨"A".data, 2020, some 5⟩ : CRow), ⟨"B".data, 2020, some 3⟩].map
        (fun r => (r.country, r.year))).dedup) = [("A".data, 2020), ("B".data, 2020)] := by
      decide
    rw [h2]
    simp only [List.map_cons, List.map_nil]
    have h3 : ([(⟨"A".data, 2020, some 5⟩ : CRow), ⟨"B".data, 2020, some 3⟩].filter
        (fun r => r.country == "A".data && r.year == (2020 : ℤ))).filterMap
        (fun r => r.value) = [(5 : ℚ)] := by decide
    have h4 : ([(⟨"A".data, 2020, some 5⟩ : CRow), ⟨"B".data, 2020, some 3⟩].filter
        (fun r => r.country == "B".data && r.year == (2020 : ℤ))).filterMap
        (fun r => r.value) = [(3 : ℚ)] := by decide
    rw [h3, h4]
    norm_num
  constructor
  · refine (c8_dense_rank [⟨"A".data, 2020, some 5⟩, ⟨"B".data, 2020, some 3⟩]).2.2.1
      ⟨"A".data, 2020, 5⟩ ?_ ?_
    · rw [h]
      exact List.mem_cons_self _ _
    · intro s hs hy
      rw [h] at hs
      fin_cases hs
      · exact le_refl _
      · norm_num
  · refine (c8_dense_rank [⟨"A".data, 2020, some 5⟩, ⟨"B".data, 2020, some 3⟩]).2.1
      ⟨"A".data, 2020, 5⟩ ⟨"B".data, 2020, 3⟩ ?_ ?_ rfl (by norm_num) ?_
    · rw [h]
      exact List.mem_cons_self _ _
    · rw [h]
      exact List.mem_cons_of_mem _ (List.mem_cons_self _ _)
    · intro s hs hy
      rw [h] at hs
      fin_cases hs <;> norm_num

/-! ### C3: what the percent-change computation really includes and raises -/

/-- C3 counterexample: a sector worth 0 ten years before the target and 150
at the target is reported with value plus-infinity (float division by zero),
not excluded, and it survives `dropna`; and a group with a row at the
earlier year but none at the target year raises `IndexError` instead of
being silently excluded. -/
theorem c3_counterexample :
    pctChangeGroup [⟨2014, some 0⟩, ⟨2024, some 150⟩] 2024 = .ok FVal.posInf ∧
    dfAll [⟨"X".data, "S".data, 2014, some 0⟩, ⟨"X".data, "S".data, 2024, some 150⟩]
        ("X".data) 2024 = .ok [("S".data, FVal.posInf)] ∧
    pctChangeGroup [⟨2014, some 100⟩] 2024 = .error errIndex := by
  have hpct : pctChangeGroup [⟨2014, some 0⟩, ⟨2024, some 150⟩] 2024 = .ok FVal.posInf := by
    have h1 : pctChangeGroup [⟨2014, some 0⟩, ⟨2024, some 150⟩] 2024 =
        .ok (fmul100 (fdiv (fsub (toF (some 150)) (toF (some 0))) (toF (some 0)))) := rfl
    rw [h1]
    have h2 : fsub (toF (some (150 : ℚ))) (toF (some 0)) = FVal.num 150 := by
      show FVal.num (150 - 0) = FVal.num 150
      norm_num
    rw [h2]
    have h3 : fdiv (FVal.num (150 : ℚ)) (toF (some 0)) = FVal.posInf := by
      show (if (0 : ℚ) = 0 then
          (if (150 : ℚ) = 0 then FVal.nan
            else if (0 : ℚ) < 150 then FVal.posInf else FVal.negInf)
        else FVal.num (150 / 0)) = FVal.posInf
      norm_num
    rw [h3]
    rfl
  refine ⟨hpct, ?_, rfl⟩
  show (((pctChangeGroup [⟨2014, some 0⟩, ⟨2024, some 150⟩] 2024).map
      (fun v => (("S".data : Str), v))).bind
        (fun b => Except.ok [b])) >>=
      (fun pairs => pure (pairs.filter (fun p => !(p.2 == FVal.nan)))) =
    Except.ok [("S".data, FVal.posInf)]
  rw [hpct]
  rfl

/-- C3 (amended): per sector group, the computation returns NaN (later
dropped) when year Y-10 has no row; raises `IndexError` when Y-10 has a row
but Y has none; returns the exact percent change when both first values are
present and the earlier one is nonzero; and returns plus-infinity (which
`dropna` keeps) when the earlier value is zero and the later one positive. -/
theorem c3_pct_change_cases (rows : List GRow) (y : ℤ) :
    ((∀ r ∈ rows, r.year ≠ y - 10) → pctChangeGroup rows y = .ok FVal.nan) ∧
    ((∃ r ∈ rows, r.year = y - 10) → firstObs rows y = none →
      pctChangeGroup rows y = .error errIndex) ∧
    (∀ a b : ℚ, firstObs rows y = some (some a) → firstObs rows (y - 10) = some (some b) →
      b ≠ 0 → pctChangeGroup rows y = .ok (FVal.num ((a - b) / b * 100))) ∧
    (∀ a : ℚ, firstObs rows y = some (some a) → firstObs rows (y - 10) = some (some 0) →
      0 < a → pctChangeGroup rows y = .ok FVal.posInf) := by
  have hguard : ∀ (h : ∃ r ∈ rows, r.year = y - 10),
      (rows.any (fun r => r.year == y - 10)) = true := by
    rintro ⟨r, hr, hy⟩
    exact List.any_eq_true.mpr ⟨r, hr, by simpa using hy⟩
  refine ⟨?_, ?_, ?_, ?_⟩
  · intro h
    rw [pctChangeGroup, if_neg]
    intro hany
    rcases List.any_eq_true.mp hany with ⟨r, hr, hy⟩
    exact h r hr (by simpa using hy)
  · intro hex hnone
    rw [pctChangeGroup, if_pos (hguard hex), hnone]
  · intro a b ha hb hb0
    rw [pctChangeGroup, if_pos, ha, hb]
    · show Except.ok (fmul100 (fdiv (FVal.num (a - b)) (FVal.num b))) = _
      show Except.ok (fmul100 (if b = 0 then
          (if a - b = 0 then FVal.nan
            else if 0 < a - b then FVal.posInf else FVal.negInf)
        else FVal.num ((a - b) / b))) = _
      rw [if_neg hb0]
      rfl
    · apply hguard
      have := congrArg (fun o => o = none) hb
      rcases hfind : List.find? (fun r => r.year == y - 10) rows with _ | r
      · rw [firstObs, hfind] at hb
        exact absurd hb (by simp)
      · refine ⟨r, List.mem_of_find?_eq_some hfind, ?_⟩
        have := List.find?_some hfind
        simpa using this
  · intro a ha hb ha0
    rw [pctChangeGroup, if_pos, ha, hb]
    · show Except.ok (fmul100 (fdiv (FVal.num (a - 0)) (FVal.num 0))) = _
      show Except.ok (fmul100 (if (0 : ℚ) = 0 then
          (if a - 0 = 0 then FVal.nan
            else if 0 < a - 0 then FVal.posInf else FVal.negInf)
        else FVal.num ((a - 0) / 0))) = _
      rw [if_pos rfl, if_neg (by rw [sub_zero]; exact ne_of_gt ha0),
        if_pos (by rw [sub_zero]; exact ha0)]
      rfl
    · apply hguard
      rcases hfind : List.find? (fun r => r.year == y - 10) rows with _ | r
      · rw [firstObs, hfind] at hb
        exact absurd hb (by simp)
      · refine ⟨r, List.mem_of_find?_eq_some hfind, ?_⟩
        have := List.find?_some hfind
        simpa using this

/-- Witness for the amended C3 at a concrete input: 100 then 150 gives
exactly 50 percent. -/
theorem c3_witness :
    pctChangeGroup [⟨2024, some 150⟩, ⟨2014, some 100⟩] 2024 = .ok (FVal.num 50) := by
  rw [(c3_pct_change_cases [⟨2024, some 150⟩, ⟨2014, some 100⟩] 2024).2.2.1 150 100
    rfl rfl (by norm_num)]
  norm_num

/-! ### C10: duplicate (sector, year) rows and the percent change -/

theorem find?_filter_of_imp {α : Type} (l : List α) (p q : α → Bool)
    (h : ∀ x, p x = true → q x = true) : (l.filter q).find? p = l.find? p := by
  induction l with
  | nil => rfl
  | cons a t ih =>
    rw [List.filter_cons]
    by_cases hq : q a = true
    · rw [if_pos hq, List.find?_cons, List.find?_cons]
      cases hp : p a
      · exact ih
      · rfl
    · rw [if_neg hq, List.find?_cons]
      cases hp : p a
      · exact ih
      · exact absurd (h a hp) hq

theorem any_filter_of_imp {α : Type} (l : List α) (p q : α → Bool)
    (h : ∀ x, p x = true → q x = true) : (l.filter q).any p = l.any p := by
  induction l with
  | nil => rfl
  | cons a t ih =>
    rw [List.filter_cons]
    by_cases hq : q a = true
    · rw [if_pos hq, List.any_cons, List.any_cons, ih]
    · rw [if_neg hq, List.any_cons, ih]
      cases hp : p a
      · rw [Bool.false_or]
      · exact absurd (h a hp) hq

theorem dedup_find? (rows : List GRow) (t : ℤ) :
    (dedupFirstByYear rows).find? (fun r => r.year == t) =
      rows.find? (fun r => r.year == t) := by
  induction rows using dedupFirstByYear.induct with
  | case1 => rw [dedupFirstByYear]
  | case2 r rest ih =>
    rw [dedupFirstByYear, List.find?_cons, List.find?_cons]
    cases hp : ((r.year == t) : Bool)
    · rw [ih, find?_filter_of_imp]
      intro x hx
      have hxt : x.year = t := by simpa using hx
      have hrt : r.year ≠ t := by simpa using hp
      simp [hxt]
      exact fun hcon => hrt hcon.symm
    · rfl

theorem dedup_any (rows : List GRow) (t : ℤ) :
    (dedupFirstByYear rows).any (fun r => r.year == t) =
      rows.any (fun r => r.year == t) := by
  induction rows using dedupFirstByYear.induct with
  | case1 => rw [dedupFirstByYear]
  | case2 r rest ih =>
    rw [dedupFirstByYear, List.any_cons, List.any_cons]
    cases hp : ((r.year == t) : Bool)
    · rw [Bool.false_or, Bool.false_or, ih, any_filter_of_imp]
      intro x hx
      have hxt : x.year = t := by simpa using hx
      have hrt : r.year ≠ t := by simpa using hp
      simp [hxt]
      exact fun hcon => hrt hcon.symm
    · rw [Bool.true_or, Bool.true_or]

/-! ### C6: the top-N-plus-highlight set -/

theorem countP_map_eq_zero {l : List CRow} {a : Str}
    (hmem : a ∉ l.map (fun r => mapUpper r.country)) :
    l.countP (fun r => mapUpper r.country == a) = 0 := by
  induction l with
  | nil => rfl
  | cons r t ih =>
    rw [List.map_cons, List.mem_cons] at hmem
    push_neg at hmem
    rw [List.countP_cons, ih hmem.2, if_neg]
    simp only [beq_iff_eq]
    exact fun hc => hmem.1 hc.symm

theorem countP_map_eq_one {l : List CRow} {a : Str}
    (hnd : (l.map (fun r => mapUpper r.country)).Nodup)
    (hmem : a ∈ l.map (fun r => mapUpper r.country)) :
    l.countP (fun r => mapUpper r.country == a) = 1 := by
  induction l with
  | nil => exact absurd hmem (by simp)
  | cons r t ih =>
    rw [List.map_cons, List.nodup_cons] at hnd
    rw [List.map_cons, List.mem_cons] at hmem
    rw [List.countP_cons]
    rcases hmem with hmem | hmem
    · rw [countP_map_eq_zero (hmem ▸ hnd.1), if_pos]
      simp only [beq_iff_eq]
      exact hmem.symm
    · rw [ih hnd.2 hmem, if_neg]
      simp only [beq_iff_eq]
      intro hc
      exact hnd.1 (hc ▸ hmem)

/-- C6 (confirmed, under the data conditions the claim presupposes: at
least ten rows for the year, one row per country after case folding, and
the highlight present): the result has exactly ten rows when the highlight
is already among the ten largest, exactly eleven otherwise, and contains
the highlight exactly once in both cases, ties included. -/
theorem c6_top_plus_highlight (df : List CRow) (sel : Str)
    (hnd : (df.map (fun r => mapUpper r.country)).Nodup)
    (hmem : mapUpper sel ∈ df.map (fun r => mapUpper r.country))
    (hlen : 10 ≤ df.length) :
    ((topEmitters df sel).countP (fun r => mapUpper r.country == mapUpper sel) = 1) ∧
    (mapUpper sel ∈ ((df.insertionSort rowGe).take 10).map (fun r => mapUpper r.country) →
      (topEmitters df sel).length = 10) ∧
    (mapUpper sel ∉ ((df.insertionSort rowGe).take 10).map (fun r => mapUpper r.country) →
      (topEmitters df sel).length = 11) := by
  have hperm : (df.insertionSort rowGe).Perm df := List.perm_insertionSort _ _
  have hnodupS : ((df.insertionSort rowGe).map (fun r => mapUpper r.country)).Nodup :=
    ((hperm.map _).symm).nodup hnd
  have htopnd : (((df.insertionSort rowGe).take 10).map
      (fun r => mapUpper r.country)).Nodup :=
    ((List.take_sublist 10 _).map _).nodup hnodupS
  have htoplen : ((df.insertionSort rowGe).take 10).length = 10 := by
    rw [List.length_take, List.length_insertionSort]
    exact min_eq_left hlen
  have hcountP : df.countP (fun r => mapUpper r.country == mapUpper sel) = 1 :=
    countP_map_eq_one hnd hmem
  have hselRows : (df.filter (fun r => mapUpper r.country == mapUpper sel)).length = 1 := by
    rw [← List.countP_eq_length_filter]
    exact hcountP
  by_cases hin : mapUpper sel ∈
      ((df.insertionSort rowGe).take 10).map (fun r => mapUpper r.country)
  · have hres : topEmitters df sel = (df.insertionSort rowGe).take 10 := by
      show (if df.filter (fun r => mapUpper r.country == mapUpper sel) ≠ [] ∧
          mapUpper sel ∉ ((df.insertionSort rowGe).take 10).map
            (fun r => mapUpper r.country)
        then ((((df.insertionSort rowGe).take 10) ++
          df.filter (fun r => mapUpper r.country == mapUpper sel)).insertionSort
            rowGe).take 11
        else (df.insertionSort rowGe).take 10) = (df.insertionSort rowGe).take 10
      rw [if_neg (fun hc => hc.2 hin)]
    refine ⟨?_, fun _ => by rw [hres]; exact htoplen, fun hno => absurd hin hno⟩
    rw [hres]
    exact countP_map_eq_one htopnd hin
  · have hne : df.filter (fun r => mapUpper r.country == mapUpper sel) ≠ [] := by
      intro hc
      rw [hc] at hselRows
      exact absurd hselRows (by simp)
    have hres : topEmitters df sel =
        ((((df.insertionSort rowGe).take 10) ++
          df.filter (fun r => mapUpper r.country == mapUpper sel)).insertionSort
            rowGe).take 11 := by
      show (if df.filter (fun r => mapUpper r.country == mapUpper sel) ≠ [] ∧
          mapUpper sel ∉ ((df.insertionSort rowGe).take 10).map
            (fun r => mapUpper r.country)
        then ((((df.insertionSort rowGe).take 10) ++
          df.filter (fun r => mapUpper r.country == mapUpper sel)).insertionSort
            rowGe).take 11
        else (df.insertionSort rowGe).take 10) = _
      rw [if_pos ⟨hne, hin⟩]
    have hlen2 : ((((df.insertionSort rowGe).take 10) ++
        df.filter (fun r => mapUpper r.country == mapUpper sel)).insertionSort
          rowGe).length = 11 := by
      rw [List.length_insertionSort, List.length_append, htoplen, hselRows]
    have htake : ((((df.insertionSort rowGe).take 10) ++
        df.filter (fun r => mapUpper r.country == mapUpper sel)).insertionSort
          rowGe).take 11 =
        ((((df.insertionSort rowGe).take 10) ++
          df.filter (fun r => mapUpper r.country == mapUpper sel)).insertionSort
            rowGe) := by
      have h := List.take_length ((((df.insertionSort rowGe).take 10) ++
        df.filter (fun r => mapUpper r.country == mapUpper sel)).insertionSort rowGe)
      rw [hlen2] at h
      exact h
    refine ⟨?_, fun hin2 => absurd hin2 hin, fun _ => by rw [hres, htake]; exact hlen2⟩
    rw [hres, htake, (List.perm_insertionSort rowGe _).countP_eq, List.countP_append]
    have hz : (((df.insertionSort rowGe).take 10).countP
        (fun r => mapUpper r.country == mapUpper sel)) = 0 :=
      countP_map_eq_zero hin
    have ho : ((df.filter (fun r => mapUpper r.country == mapUpper sel)).countP
        (fun r => mapUpper r.country == mapUpper sel)) = 1 := by
      rw [List.countP_filter]
      have hpp : df.filter (fun r =>
          (mapUpper r.country == mapUpper sel) && (mapUpper r.country == mapUpper sel)) =
          df.filter (fun r => mapUpper r.country == mapUpper sel) :=
        List.filter_congr (fun x _ => Bool.and_self _)
      rw [List.countP_eq_length_filter, hpp, hselRows]
    rw [hz, ho]

/-- Witness for C6 at a concrete input: ten countries, highlight present
and ranked first (case-insensitively), so the result keeps exactly ten rows
with the highlight once. -/
theorem c6_witness :
    ((topEmitters [⟨"A0".data, 2024, some 10⟩, ⟨"A1".data, 2024, some 9⟩,
      ⟨"A2".data, 2024, some 8⟩, ⟨"A3".data, 2024, some 7⟩, ⟨"A4".data, 2024, some 6⟩,
      ⟨"A5".data, 2024, some 5⟩, ⟨"A6".data, 2024, some 4⟩, ⟨"A7".data, 2024, some 3⟩,
      ⟨"A8".data, 2024, some 2⟩, ⟨"A9".data, 2024, some 1⟩] ("a0".data)).countP
        (fun r => mapUpper r.country == mapUpper ("a0".data)) = 1) ∧
    ((topEmitters [⟨"A0".data, 2024, some 10⟩, ⟨"A1".data, 2024, some 9⟩,
      ⟨"A2".data, 2024, some 8⟩, ⟨"A3".data, 2024, some 7⟩, ⟨"A4".data, 2024, some 6⟩,
      ⟨"A5".data, 2024, some 5⟩, ⟨"A6".data, 2024, some 4⟩, ⟨"A7".data, 2024, some 3⟩,
      ⟨"A8".data, 2024, some 2⟩, ⟨"A9".data, 2024, some 1⟩] ("a0".data)).length = 10) :=
  ⟨(c6_top_plus_highlight [⟨"A0".data, 2024, some 10⟩, ⟨"A1".data, 2024, some 9⟩,
      ⟨"A2".data, 2024, some 8⟩, ⟨"A3".data, 2024, some 7⟩, ⟨"A4".data, 2024, some 6⟩,
      ⟨"A5".data, 2024, some 5⟩, ⟨"A6".data, 2024, some 4⟩, ⟨"A7".data, 2024, some 3⟩,
      ⟨"A8".data, 2024, some 2⟩, ⟨"A9".data, 2024, some 1⟩] ("a0".data)
      (by decide) (by decide) (by decide)).1,
    (c6_top_plus_highlight [⟨"A0".data, 2024, some 10⟩, ⟨"A1".data, 2024, some 9⟩,
      ⟨"A2".data, 2024, some 8⟩, ⟨"A3".data, 2024, some 7⟩, ⟨"A4".data, 2024, some 6⟩,
      ⟨"A5".data, 2024, some 5⟩, ⟨"A6".data, 2024, some 4⟩, ⟨"A7".data, 2024, some 3⟩,
      ⟨"A8".data, 2024, some 2⟩, ⟨"A9".data, 2024, some 1⟩] ("a0".data)
      (by decide) (by decide) (by decide)).2.1 (by decide)⟩

/-! ### C7: dominant-sector selection via idxmax -/

theorem pickFM_mem (b : SRow × ℚ) (xs : List (SRow × ℚ)) : pickFM b xs ∈ b :: xs := by
  induction xs generalizing b with
  | nil =>
    rw [pickFM]
    exact List.mem_cons_self _ _
  | cons z zs ih =>
    rw [pickFM]
    have h := ih (if b.2 < z.2 then z else b)
    rcases List.mem_cons.mp h with heq | hmem
    · rw [heq]
      by_cases hc : b.2 < z.2
      · rw [if_pos hc]
        exact List.mem_cons_of_mem _ (List.mem_cons_self _ _)
      · rw [if_neg hc]
        exact List.mem_cons_self _ _
    · exact List.mem_cons_of_mem _ (List.mem_cons_of_mem _ hmem)

theorem pickFM_max (b : SRow × ℚ) (xs : List (SRow × ℚ)) :
    ∀ x ∈ b :: xs, x.2 ≤ (pickFM b xs).2 := by
  induction xs generalizing b with
  | nil =>
    intro x hx
    rw [pickFM]
    rcases List.mem_cons.mp hx with h | h
    · rw [h]
    · exact absurd h (List.not_mem_nil _)
  | cons z zs ih =>
    intro x hx
    rw [pickFM]
    have hall := ih (if b.2 < z.2 then z else b)
    have hb : b.2 ≤ (if b.2 < z.2 then z else b).2 := by
      by_cases hc : b.2 < z.2
      · rw [if_pos hc]
        exact le_of_lt hc
      · rw [if_neg hc]
    have hz : z.2 ≤ (if b.2 < z.2 then z else b).2 := by
      by_cases hc : b.2 < z.2
      · rw [if_pos hc]
      · rw [if_neg hc]
        exact le_of_not_lt hc
    rcases List.mem_cons.mp hx with h | h
    · exact le_trans (h ▸ hb) (hall _ (List.mem_cons_self _ _))
    · rcases List.mem_cons.mp h with h2 | h2
      · exact le_trans (h2 ▸ hz) (hall _ (List.mem_cons_self _ _))
      · exact hall x (List.mem_cons_of_mem _ h2)

theorem pickFM_stay (b : SRow × ℚ) (xs : List (SRow × ℚ))
    (h : ∀ x ∈ xs, x.2 ≤ b.2) : pickFM b xs = b := by
  induction xs generalizing b with
  | nil => rw [pickFM]
  | cons z zs ih =>
    rw [pickFM, if_neg (not_lt_of_le (h z (List.mem_cons_self _ _)))]
    exact ih b (fun x hx => h x (List.mem_cons_of_mem _ hx))

theorem pickFM_first (b : SRow × ℚ) (xs : List (SRow × ℚ)) :
    (b :: xs).find? (fun x => decide ((pickFM b xs).2 ≤ x.2)) = some (pickFM b xs) := by
  induction xs generalizing b with
  | nil =>
    rw [pickFM]
    simp only [List.find?_cons, decide_eq_true (le_refl b.2)]
  | cons z zs ih =>
    rw [pickFM]
    by_cases hc : b.2 < z.2
    · rw [if_pos hc]
      have hzle : z.2 ≤ (pickFM z zs).2 := pickFM_max z zs z (List.mem_cons_self _ _)
      have hb : decide ((pickFM z zs).2 ≤ b.2) = false := by
        rw [decide_eq_false_iff_not]
        intro hle
        exact absurd (lt_of_lt_of_le hc hzle) (not_lt_of_le hle)
      simp only [List.find?_cons, hb]
      exact ih z
    · rw [if_neg hc]
      by_cases hres : (pickFM b zs).2 ≤ b.2
      · have hstay : pickFM b zs = b :=
          pickFM_stay b zs (fun x hx =>
            le_trans (pickFM_max b zs x (List.mem_cons_of_mem _ hx)) hres)
        rw [hstay]
        simp only [List.find?_cons, decide_eq_true (le_refl b.2)]
      · have hb : decide ((pickFM b zs).2 ≤ b.2) = false := decide_eq_false hres
        have hzb : z.2 ≤ b.2 := le_of_not_lt hc
        have hzf : decide ((pickFM b zs).2 ≤ z.2) = false := by
          rw [decide_eq_false_iff_not]
          intro hle
          exact hres (le_trans hle hzb)
        simp only [List.find?_cons, hb, hzf]
        have hih := ih b
        simp only [List.find?_cons, hb] at hih
        exact hih

theorem presentPairs_mem {g : List SRow} {pr : SRow × ℚ} (h : pr ∈ presentPairs g) :
    pr.1 ∈ g ∧ pr.1.value = some pr.2 := by
  rw [presentPairs] at h
  rcases List.mem_filterMap.mp h with ⟨r, hr, hmap⟩
  rcases hv : r.value with _ | q
  · rw [hv] at hmap
    exact absurd hmap (by simp)
  · rw [hv] at hmap
    have : (r, q) = pr := by simpa using hmap
    rw [← this]
    exact ⟨hr, hv⟩

theorem presentPairs_mem_of {g : List SRow} {r : SRow} {q : ℚ}
    (hr : r ∈ g) (hv : r.value = some q) : (r, q) ∈ presentPairs g := by
  rw [presentPairs]
  exact List.mem_filterMap.mpr ⟨r, hr, by rw [hv]; rfl⟩

theorem find?_presentPairs {g : List SRow} {m : ℚ} {pr : SRow × ℚ}
    (h : (presentPairs g).find? (fun x => decide (m ≤ x.2)) = some pr) :
    g.find? (fun s => geOpt m s.value) = some pr.1 := by
  induction g with
  | nil => exact absurd h (by rw [presentPairs]; simp)
  | cons s t ih =>
    rcases hv : s.value with _ | q
    · have hpp : presentPairs (s :: t) = presentPairs t := by
        rw [presentPairs, List.filterMap_cons, hv, presentPairs]
        rfl
      rw [hpp] at h
      have hg : geOpt m s.value = false := by rw [hv]; rfl
      simp only [List.find?_cons, hg]
      exact ih h
    · have hpp : presentPairs (s :: t) = (s, q) :: presentPairs t := by
        rw [presentPairs, List.filterMap_cons, hv, presentPairs]
        rfl
      rw [hpp] at h
      have hg : geOpt m s.value = decide (m ≤ q) := by
        rw [hv]
        rfl
      simp only [List.find?_cons] at h ⊢
      rw [hg]
      cases hd : decide (m ≤ q) with
      | false =>
        rw [hd] at h
        exact ih h
      | true =>
        rw [hd] at h
        obtain rfl : (s, q) = pr := by simpa using h
        rfl

theorem pickC_spec {dfy : List SRow} {c : Str} {r : SRow} (h : pickC dfy c = some r) :
    r ∈ dfy.filter (fun s => s.country == c) ∧
    ∃ m, r.value = some m ∧
      (∀ s ∈ dfy.filter (fun s => s.country == c), ∀ q, s.value = some q → q ≤ m) ∧
      (dfy.filter (fun s => s.country == c)).find? (fun s => geOpt m s.value) = some r := by
  rw [pickC] at h
  rcases hpp : presentPairs (dfy.filter (fun s => s.country == c)) with _ | ⟨p, ps⟩
  · rw [hpp] at h
    exact absurd h (by simp)
  · rw [hpp] at h
    have hr : (pickFM p ps).1 = r := by simpa using h
    have hmem : pickFM p ps ∈ presentPairs (dfy.filter (fun s => s.country == c)) := by
      rw [hpp]
      exact pickFM_mem p ps
    have hprops := presentPairs_mem hmem
    refine ⟨hr ▸ hprops.1, (pickFM p ps).2, hr ▸ hprops.2, ?_, ?_⟩
    · intro s hs q hq
      have hpair : (s, q) ∈ (p :: ps) := by
        rw [← hpp]
        exact presentPairs_mem_of hs hq
      exact pickFM_max p ps (s, q) hpair
    · have hfirst := pickFM_first p ps
      rw [← hpp] at hfirst
      have := find?_presentPairs hfirst
      rw [hr] at this
      exact this

theorem filterMap_pick_countries (dfy : List SRow) (cs : List Str)
    (h : ∀ c ∈ cs, ∃ r, pickC dfy c = some r ∧ r.country = c) :
    (cs.filterMap (pickC dfy)).map (fun r => r.country) = cs := by
  induction cs with
  | nil => rfl
  | cons c cs ih =>
    rcases h c (List.mem_cons_self _ _) with ⟨r, hr, hrc⟩
    rw [List.filterMap_cons, hr, List.map_cons, hrc,
      ih (fun d hd => h d (List.mem_cons_of_mem _ hd))]

/-- C7 counterexample: an entity with a row for the year whose only value
is NaN makes the whole idxmax lookup raise instead of yielding a row for
that entity (and instead of omitting it). -/
theorem c7_counterexample :
    dominantRows [⟨"X".data, "A".data, 2024, none⟩] 2024 = .error errAllNA := rfl

/-- C7 (amended): provided every entity appearing in the year's slice has
at least one non-missing value, the selection returns exactly one row per
such entity (entities with no rows for the year are omitted, not errors);
the returned row belongs to the year's slice, its value is the maximum
among the entity's present values, and it is the first row of the entity's
group attaining that maximum (input order, NaN rows skipped).  An entity
whose rows for the year all carry NaN instead makes the computation raise
(see the counterexample), which is the one circumstance the original claim
covers incorrectly. -/
theorem c7_dominant (df : List SRow) (y : ℤ)
    (hp : ∀ r ∈ df, r.year = y →
      ∃ s ∈ df, s.year = y ∧ s.country = r.country ∧ s.value.isSome = true) :
    ∃ L, dominantRows df y = .ok L ∧
      L.map (fun r => r.country) =
        ((df.filter (fun r => r.year == y)).map (fun r => r.country)).dedup ∧
      (L.map (fun r => r.country)).Nodup ∧
      ∀ r ∈ L, (r ∈ df ∧ r.year = y) ∧
        ∃ m, r.value = some m ∧
          (∀ s ∈ df, s.year = y → s.country = r.country →
            ∀ q, s.value = some q → q ≤ m) ∧
          ((df.filter (fun s => s.year == y)).filter
            (fun s => s.country == r.country)).find?
              (fun s => geOpt m s.value) = some r := by
  have hpick : ∀ c ∈ (((df.filter (fun r => r.year == y)).map
      (fun r => r.country)).dedup), ∃ r, pickC (df.filter (fun r => r.year == y)) c = some r ∧
      r.country = c := by
    intro c hc
    rcases List.mem_map.mp (List.mem_dedup.mp hc) with ⟨row, hrow, hrowc⟩
    rcases List.mem_filter.mp hrow with ⟨hrdf, hry⟩
    rcases hp row hrdf (by simpa using hry) with ⟨s, hsdf, hsy, hsc, hsv⟩
    have hsg : s ∈ (df.filter (fun r => r.year == y)).filter (fun r => r.country == c) := by
      refine List.mem_filter.mpr ⟨List.mem_filter.mpr ⟨hsdf, by simpa using hsy⟩, ?_⟩
      rw [hsc, hrowc]
      simp
    rcases hq : s.value with _ | q
    · rw [hq] at hsv
      exact absurd hsv (by simp)
    · have hpair := presentPairs_mem_of hsg hq
      rcases hppe : presentPairs ((df.filter (fun r => r.year == y)).filter
          (fun r => r.country == c)) with _ | ⟨p, ps⟩
      · rw [hppe] at hpair
        exact absurd hpair (List.not_mem_nil _)
      · refine ⟨(pickFM p ps).1, ?_, ?_⟩
        · rw [pickC, hppe]
        · have hm : pickC (df.filter (fun r => r.year == y)) c = some (pickFM p ps).1 := by
            rw [pickC, hppe]
          have := (pickC_spec hm).1
          have := (List.mem_filter.mp this).2
          simpa using this
  have hcond : (((df.filter (fun r => r.year == y)).map (fun r => r.country)).dedup).all
      (fun c => (pickC (df.filter (fun r => r.year == y)) c).isSome) = true := by
    rw [List.all_eq_true]
    intro c hc
    rcases hpick c hc with ⟨r, hr, -⟩
    rw [hr]
    rfl
  have hok : dominantRows df y = .ok ((((df.filter (fun r => r.year == y)).map
      (fun r => r.country)).dedup).filterMap (pickC (df.filter (fun r => r.year == y)))) := by
    rw [dominantRows, if_pos hcond]
  refine ⟨_, hok, filterMap_pick_countries _ _ hpick, ?_, ?_⟩
  · rw [filterMap_pick_countries _ _ hpick]
    exact List.nodup_dedup _
  · intro r hrL
    rcases List.mem_filterMap.mp hrL with ⟨c, hc, hpc⟩
    have hspec := pickC_spec hpc
    rcases List.mem_filter.mp hspec.1 with ⟨hrdfy, hrc⟩
    rcases List.mem_filter.mp hrdfy with ⟨hrdf, hry⟩
    have hrc' : r.country = c := by simpa using hrc
    rcases hspec.2 with ⟨m, hm, hmax, hfirst⟩
    refine ⟨⟨hrdf, by simpa using hry⟩, m, hm, ?_, ?_⟩
    · intro s hsdf hsy hsc q hq
      refine hmax s ?_ q hq
      refine List.mem_filter.mpr ⟨List.mem_filter.mpr ⟨hsdf, by simpa using hsy⟩, ?_⟩
      rw [hsc, hrc']
      simp
    · rw [← hrc'] at hfirst
      exact hfirst

/-- Witness for the amended C7 at a concrete input with a value tie
(sector rows 5, 9, 9). -/
theorem c7_witness :
    ∃ L, dominantRows [⟨"X".data, "A".data, 2024, some 5⟩,
        ⟨"X".data, "B".data, 2024, some 9⟩, ⟨"X".data, "C".data, 2024, some 9⟩] 2024 =
      .ok L ∧
      L.map (fun r => r.country) =
        ((([⟨"X".data, "A".data, 2024, some 5⟩, ⟨"X".data, "B".data, 2024, some 9⟩,
          ⟨"X".data, "C".data, 2024, some 9⟩] : List SRow).filter
            (fun r => r.year == (2024 : ℤ))).map (fun r => r.country)).dedup ∧
      (L.map (fun r => r.country)).Nodup ∧
      ∀ r ∈ L, (r ∈ ([⟨"X".data, "A".data, 2024, some 5⟩,
          ⟨"X".data, "B".data, 2024, some 9⟩,
          ⟨"X".data, "C".data, 2024, some 9⟩] : List SRow) ∧ r.year = 2024) ∧
        ∃ m, r.value = some m ∧
          (∀ s ∈ ([⟨"X".data, "A".data, 2024, some 5⟩, ⟨"X".data, "B".data, 2024, some 9⟩,
            ⟨"X".data, "C".data, 2024, some 9⟩] : List SRow), s.year = 2024 →
              s.country = r.country → ∀ q, s.value = some q → q ≤ m) ∧
          ((([⟨"X".data, "A".data, 2024, some 5⟩, ⟨"X".data, "B".data, 2024, some 9⟩,
            ⟨"X".data, "C".data, 2024, some 9⟩] : List SRow).filter
              (fun s => s.year == (2024 : ℤ))).filter
                (fun s => s.country == r.country)).find?
                  (fun s => geOpt m s.value) = some r :=
  c7_dominant [⟨"X".data, "A".data, 2024, some 5⟩, ⟨"X".data, "B".data, 2024, some 9⟩,
    ⟨"X".data, "C".data, 2024, some 9⟩] 2024 (by decide)

/-! ### C9: the Country column is reassigned mid-pipeline -/

theorem mapUpper_titleAux (b : Bool) (l : Str) : mapUpper (titleAux b l) = mapUpper l := by
  induction l generalizing b with
  | nil => rfl
  | cons c t ih =>
    rw [titleAux]
    simp only [mapUpper, List.map_cons] at ih ⊢
    have hh : Char.toUpper (if c.isAlpha = true then
        (if b = true then Char.toLower c else Char.toUpper c) else c) = Char.toUpper c := by
      by_cases ha : c.isAlpha = true
      · rw [if_pos ha]
        by_cases hb : b = true
        · rw [if_pos hb, upLo]
        · rw [if_neg hb, upUp]
      · rw [if_neg ha]
    rw [hh, ih c.isAlpha]

theorem wsProf_titleAux (b : Bool) (l : Str) :
    (titleAux b l).map isWS = l.map isWS := by
  induction l generalizing b with
  | nil => rfl
  | cons c t ih =>
    rw [titleAux]
    simp only [List.map_cons]
    have hh : isWS (if c.isAlpha = true then
        (if b = true then Char.toLower c else Char.toUpper c) else c) = isWS c := by
      by_cases ha : c.isAlpha = true
      · rw [if_pos ha]
        by_cases hb : b = true
        · rw [if_pos hb, isWS, isWS, wsLo]
        · rw [if_neg hb, isWS, isWS, wsUp]
      · rw [if_neg ha]
    rw [hh, ih c.isAlpha]

theorem head_dropWhile (l : Str) : ∀ h ∈ (l.dropWhile isWS).head?, isWS h = false := by
  induction l with
  | nil =>
    intro h hh
    exact absurd hh (by simp)
  | cons c t ih =>
    rw [List.dropWhile_cons]
    by_cases hc : isWS c = true
    · rw [if_pos hc]
      exact ih
    · rw [if_neg hc]
      intro h hh
      obtain rfl : c = h := by simpa using hh
      simpa using hc

theorem dropWhile_eq_self_of_head (l : Str) (h : ∀ x ∈ l.head?, isWS x = false) :
    l.dropWhile isWS = l := by
  cases l with
  | nil => rfl
  | cons c t =>
    have hc : isWS c = false := h c rfl
    rw [List.dropWhile_cons, if_neg (by rw [hc]; exact Bool.false_ne_true)]

theorem head_eq_self_of_dropWhile (l : Str) (h : l.dropWhile isWS = l) :
    ∀ x ∈ l.head?, isWS x = false := by
  cases l with
  | nil =>
    intro x hx
    exact absurd hx (by simp)
  | cons c t =>
    intro x hx
    obtain rfl : c = x := by simpa using hx
    by_contra hcon
    have hc : isWS c = true := by simpa using hcon
    rw [List.dropWhile_cons, if_pos hc] at h
    have hlen := congrArg List.length h
    have hle := (@List.dropWhile_sublist _ t isWS).length_le
    rw [List.length_cons] at hlen
    omega

theorem profile_head {a b : Str} (hp : a.map isWS = b.map isWS)
    (h : ∀ x ∈ a.head?, isWS x = false) : ∀ x ∈ b.head?, isWS x = false := by
  cases a with
  | nil =>
    cases b with
    | nil =>
      intro x hx
      exact absurd hx (by simp)
    | cons d s => exact absurd hp (by simp)
  | cons c t =>
    cases b with
    | nil => exact absurd hp (by simp)
    | cons d s =>
      intro x hx
      obtain rfl : d = x := by simpa using hx
      rw [List.map_cons, List.map_cons] at hp
      injection hp with h1 h2
      rw [← h1]
      exact h c rfl

theorem trimL_eq_self_of_profile {a b : Str} (hp : a.map isWS = b.map isWS)
    (ha : a.dropWhile isWS = a) : b.dropWhile isWS = b :=
  dropWhile_eq_self_of_head b (profile_head hp (head_eq_self_of_dropWhile a ha))

theorem trimR_reverse {x : Str} (h : x.reverse.dropWhile isWS = x.reverse) : trimR x = x := by
  rw [trimR, h, List.reverse_reverse]

theorem reverse_of_trimR {x : Str} (h : trimR x = x) :
    x.reverse.dropWhile isWS = x.reverse := by
  have h2 := congrArg List.reverse h
  rw [trimR, List.reverse_reverse] at h2
  exact h2

theorem trim_both {l : Str} (h : trimC l = l) : trimL l = l ∧ trimR l = l := by
  have h1 : (trimL l).Sublist l := by
    rw [trimL]
    exact List.dropWhile_sublist _
  have hlen2 : (trimR (trimL l)).length ≤ (trimL l).length := by
    rw [trimR, List.length_reverse]
    calc ((trimL l).reverse.dropWhile isWS).length
        ≤ (trimL l).reverse.length := (List.dropWhile_sublist _).length_le
      _ = (trimL l).length := List.length_reverse _
  have hL : trimL l = l := by
    apply h1.eq_of_length
    have h3 := congrArg List.length h
    rw [trimC] at h3
    have h4 := h1.length_le
    omega
  refine ⟨hL, ?_⟩
  rw [trimC, hL] at h
  exact h

theorem trimR_isPrefixOf (y : Str) : trimR y <+: y := by
  apply List.reverse_suffix.mp
  rw [trimR, List.reverse_reverse]
  exact List.dropWhile_suffix _

theorem trimL_trimR_of_trimL {y : Str} (hy : y.dropWhile isWS = y) :
    (trimR y).dropWhile isWS = trimR y := by
  rcases trimR_isPrefixOf y with ⟨t, ht⟩
  rcases hcase : trimR y with _ | ⟨c, s⟩
  · rfl
  · apply dropWhile_eq_self_of_head
    intro x hx
    obtain rfl : c = x := by simpa using hx
    have hhead := head_eq_self_of_dropWhile y hy
    rw [hcase] at ht
    rw [← ht] at hhead
    exact hhead c rfl

theorem trimC_trimC (l : Str) : trimC (trimC l) = trimC l := by
  have hdd : (trimL l).dropWhile isWS = trimL l := by
    rw [trimL]
    exact dropWhile_eq_self_of_head _ (head_dropWhile l)
  have hLC : trimL (trimC l) = trimC l := by
    rw [trimC, trimL]
    exact trimL_trimR_of_trimL hdd
  have hRC : trimR (trimC l) = trimC l := by
    apply trimR_reverse
    rw [trimC, trimR, List.reverse_reverse]
    exact dropWhile_eq_self_of_head _ (head_dropWhile _)
  rw [trimC, hLC, hRC]

theorem trimC_codeNormalize (raw : Str) :
    trimC (codeNormalize raw) = codeNormalize raw := by
  rw [codeNormalize, trimC_mapUpper, trimC_trimC]

theorem trimC_titleStr {u : Str} (hu : trimC u = u) : trimC (titleStr u) = titleStr u := by
  obtain ⟨hL, hR⟩ := trim_both hu
  have hprofile : (titleStr u).map isWS = u.map isWS := wsProf_titleAux false u
  have hL2 : (titleStr u).dropWhile isWS = titleStr u := by
    apply trimL_eq_self_of_profile hprofile.symm
    rw [trimL] at hL
    exact hL
  have hR2 : trimR (titleStr u) = titleStr u := by
    apply trimR_reverse
    refine @trimL_eq_self_of_profile u.reverse _ ?_ ?_
    · rw [List.map_reverse, List.map_reverse, hprofile]
    · exact reverse_of_trimR hR
  rw [trimC, trimL, hL2, hR2]

theorem codeNormalize_title (raw : Str) :
    codeNormalize (titleStr (codeNormalize raw)) =
      mapUpper (titleStr (codeNormalize raw)) := by
  rw [codeNormalize, trimC_titleStr (trimC_codeNormalize raw)]

/-- C9 counterexample: the same long table shows different Country contents
to the aggregates that consume it before line 287 (title case) and to the
rank computation that consumes it afterwards (upper case): the table is
mutated between hand-offs. -/
theorem c9_counterexample :
    stageDisplay [⟨"india".data, 2024, some 1⟩] = [⟨"India".data, 2024, some 1⟩] ∧
    stageBump [⟨"india".data, 2024, some 1⟩] = [⟨"INDIA".data, 2024, some 1⟩] ∧
    stageDisplay [⟨"india".data, 2024, some 1⟩] ≠
      stageBump [⟨"india".data, 2024, some 1⟩] :=
  ⟨by decide, by decide, by decide⟩

/-- C9 (amended): the only in-place change line 287 makes is to uppercase
the Country column of the already-filtered display table: the rank steps
observe exactly the earlier table with `str.upper` applied to each name,
all other fields unchanged. -/
theorem c9_mutation_is_upper (l : List CRow) :
    stageBump l = (stageDisplay l).map
      (fun r => (⟨mapUpper r.country, r.year, r.value⟩ : CRow)) := by
  rw [stageBump, stageDisplay, List.map_map, List.map_map]
  apply List.map_congr_left
  intro r' hr'
  rcases List.mem_filter.mp hr' with ⟨hmemm, -⟩
  rcases List.mem_map.mp hmemm with ⟨r0, -, heq⟩
  have hc : r'.country = codeNormalize r0.country := by
    rw [← heq]
  show (⟨codeNormalize (titleStr r'.country), r'.year, r'.value⟩ : CRow) =
    ⟨mapUpper (titleStr r'.country), r'.year, r'.value⟩
  rw [hc, codeNormalize_title]

/-- C10 (confirmed): the percent-change lambda reads only the first row per
year (`.values[0]`), so deleting every duplicate-year row after the first
changes nothing: extra rows for an already-seen year are silently ignored,
neither summed nor reported. -/
theorem c10_first_row_only (rows : List GRow) (y : ℤ) :
    pctChangeGroup (dedupFirstByYear rows) y = pctChangeGroup rows y := by
  rw [pctChangeGroup, pctChangeGroup]
  simp only [firstObs, dedup_any, dedup_find?]

end GHG
